import Mathlib

/-!
# Verification of the my-pocket URL metadata extractor

Shallow embedding of the server action in the repository (the current,
truncating variant of the extractor source; an older variant of the same
action without the truncation wrappers also exists in the repository but
is superseded).  Strings are modelled as `List Char` so that every
operation computes; JavaScript string primitives such as
`replace(/\s+/g, " ")`, `trim`, `slice`, `includes` and `split` are
embedded as executable list functions with the semantics the runtime
gives them on the relevant inputs.  Library-provided values that the
code consumes but does not compute, such as `new URL(url).hostname`
and `new Date().toISOString()`, are passed in as parameters.
-/

namespace MyPocket

set_option maxRecDepth 20000

/-- Convert a Lean string literal to the character-list model. -/
def cs (s : String) : List Char := s.data

/-! ## JavaScript whitespace, `replace(/\s+/g, " ")`, `trim`, `slice` -/

/-- The character class matched by the JavaScript regex `\s` (also the set
removed by `String.prototype.trim`): tab, LF, VT, FF, CR, space, NBSP,
Ogham space mark, the en/em quad family, line and paragraph separator,
narrow no-break space, medium mathematical space, ideographic space and
the BOM. -/
def jsWhitespaceChars : List Char :=
  ['\t', '\n', '\x0b', '\x0c', '\r', ' ', '\u00A0', '\u1680',
   '\u2000', '\u2001', '\u2002', '\u2003', '\u2004', '\u2005', '\u2006',
   '\u2007', '\u2008', '\u2009', '\u200A', '\u2028', '\u2029', '\u202F',
   '\u205F', '\u3000', '\uFEFF']

/-- Whether a character matches the JavaScript `\s` class. -/
def isJsWhitespace (c : Char) : Bool := jsWhitespaceChars.contains c

/-- One pass of `text.replace(/\s+/g, " ")`: the flag records whether the
previous character belonged to a whitespace run that has already emitted
its single replacement space. -/
def collapseWsAux : List Char → Bool → List Char
  | [], _ => []
  | c :: rest, prev =>
    if isJsWhitespace c then
      if prev then collapseWsAux rest true
      else ' ' :: collapseWsAux rest true
    else c :: collapseWsAux rest false

/-- `text.replace(/\s+/g, " ")`: every maximal run of whitespace becomes a
single space. -/
def collapseWs (l : List Char) : List Char := collapseWsAux l false

/-- Drop a trailing run of JavaScript whitespace. -/
def dropTrailingWs : List Char → List Char
  | [] => []
  | c :: rest =>
    match dropTrailingWs rest with
    | [] => if isJsWhitespace c then [] else [c]
    | r => c :: r

/-- `text.trim()`: remove leading and trailing JavaScript whitespace. -/
def jsTrim (l : List Char) : List Char :=
  dropTrailingWs (l.dropWhile isJsWhitespace)

/-- `truncateToVarCharLimit` from the source: empty input is returned as
is, otherwise whitespace runs are collapsed to single spaces, the result
is trimmed, and everything past the 255th character is discarded
(`slice(0, 255)`). -/
def truncateToVarCharLimit (s : List Char) : List Char :=
  if s.isEmpty then []
  else (jsTrim (collapseWs s)).take 255

/-- `normalizeText` from the source: the same whitespace normalization
with no length cut, used for TEXT-typed fields. -/
def normalizeText (s : List Char) : List Char :=
  if s.isEmpty then []
  else jsTrim (collapseWs s)

/-! ## `String.prototype.includes` and the JS-requirement heuristic -/

/-- Whether `sub` is a prefix of `hay`, by character comparison. -/
def startsWithB : List Char → List Char → Bool
  | _, [] => true
  | [], _ :: _ => false
  | a :: hay, b :: sub => a == b && startsWithB hay sub

/-- `hay.includes(sub)`: contiguous substring containment. -/
def includesB : List Char → List Char → Bool
  | [], sub => sub.isEmpty
  | a :: hay, sub => startsWithB (a :: hay) sub || includesB hay sub

/-- The fixed allow-list of JavaScript-heavy domains from
`checkIfJavaScriptRequired`. -/
def jsRequiredDomains : List (List Char) :=
  [cs "qiita.com", cs "zenn.dev", cs "note.com", cs "medium.com"]

/-- The fixed framework-mount markers from `checkIfJavaScriptRequired`. -/
def jsIndicators : List (List Char) :=
  [cs "id=\"__next\"", cs "id=\"root\"", cs "id=\"app\"",
   cs "data-reactroot", cs "__NUXT__"]

/-- `checkIfJavaScriptRequired(html, url)`.  The hostname argument models
`new URL(url).hostname`, which the code obtains from the URL library.
True when the hostname contains an allow-listed domain as a substring, or
when the HTML contains one of the framework-mount markers. -/
def checkIfJavaScriptRequired (html hostname : List Char) : Bool :=
  jsRequiredDomains.any (fun d => includesB hostname d) ||
    jsIndicators.any (fun i => includesB html i)

/-! ## DOM model

`new JSDOM(html).window.document` is modelled as a tree of element and
text nodes; an element carries its tag name, its class list and its
attribute list.  `document.querySelector` is first-match preorder search,
which is the order jsdom uses. -/

mutual

inductive Node where
  | elem (tag : List Char) (classes : List (List Char))
      (attrs : List (List Char × List Char)) (children : NodeList)
  | text (s : List Char)

inductive NodeList where
  | nil
  | cons (n : Node) (rest : NodeList)

end

/-- `element.getAttribute(name)`: the first attribute with the given
name, if any; `none` models the JavaScript `null`. -/
def getAttr (n : Node) (name : List Char) : Option (List Char) :=
  match n with
  | Node.text _ => none
  | Node.elem _ _ attrs _ => (attrs.find? (fun p => p.1 == name)).map (fun p => p.2)

/-- The selector shapes the extractor uses: a tag selector such as
`article`, a class selector such as `.post-content`, and an attribute
selector `meta[attr="value"]`. -/
inductive Selector where
  | tag (t : List Char)
  | cls (c : List Char)
  | metaAttr (attr : List Char) (value : List Char)

/-- Whether a node matches a selector.  Text nodes match nothing. -/
def matchesSel (n : Node) (s : Selector) : Bool :=
  match n, s with
  | Node.elem t _ _ _, Selector.tag t2 => t == t2
  | Node.elem _ classes _ _, Selector.cls c => classes.contains c
  | Node.elem t _ _ _, Selector.metaAttr a v =>
      t == cs "meta" && getAttr n a == some v
  | Node.text _, _ => false

mutual

/-- `document.querySelector(sel)` from a root node: preorder first match,
the root element included. -/
def findFirst : Node → Selector → Option Node
  | Node.text _, _ => none
  | Node.elem t c a ch, s =>
    if matchesSel (Node.elem t c a ch) s then some (Node.elem t c a ch)
    else findFirstList ch s

def findFirstList : NodeList → Selector → Option Node
  | NodeList.nil, _ => none
  | NodeList.cons n rest, s =>
    match findFirst n s with
    | some e => some e
    | none => findFirstList rest s

end

/-- The first `querySelector` hit across an ordered selector list: the
loop `for (const selector of selectors) ... if (element) ...`. -/
def findAcross (doc : Node) : List Selector → Option Node
  | [] => none
  | s :: rest =>
    match findFirst doc s with
    | some e => some e
    | none => findAcross doc rest

/-- The noise tags removed before reading text content:
`script, style, nav, header, footer, aside`. -/
def noiseTags : List (List Char) :=
  [cs "script", cs "style", cs "nav", cs "header", cs "footer", cs "aside"]

/-- Whether a node is an element with a noise tag. -/
def isNoise (n : Node) : Bool :=
  match n with
  | Node.elem t _ _ _ => noiseTags.contains t
  | Node.text _ => false

mutual

/-- The effect of `element.querySelectorAll("script, style, nav, header,
footer, aside").forEach(el => el.remove())`: every descendant subtree
rooted at a noise element disappears; the element itself is kept because
`querySelectorAll` only searches descendants. -/
def stripNoise : Node → Node
  | Node.text s => Node.text s
  | Node.elem t c a ch => Node.elem t c a (stripNoiseList ch)

def stripNoiseList : NodeList → NodeList
  | NodeList.nil => NodeList.nil
  | NodeList.cons n rest =>
    if isNoise n then stripNoiseList rest
    else NodeList.cons (stripNoise n) (stripNoiseList rest)

end

mutual

/-- `node.textContent`: concatenation of all text descendants in order. -/
def textContent : Node → List Char
  | Node.text s => s
  | Node.elem _ _ _ ch => textContentList ch

def textContentList : NodeList → List Char
  | NodeList.nil => []
  | NodeList.cons n rest => textContent n ++ textContentList rest

end

/-! ## JavaScript falsy-`or` chains and `split(" | ")[1]` -/

/-- `a || b` on JavaScript strings: the empty string is falsy. -/
def strFalsyOr (a b : List Char) : List Char :=
  if a.isEmpty then b else a

/-- `a || b` where `a` may be `undefined`/`null` (`none`) or a string:
both `none` and the empty string fall through. -/
def optFalsyOr (a : Option (List Char)) (b : List Char) : List Char :=
  match a with
  | none => b
  | some s => if s.isEmpty then b else s

/-- The separator in `title.split(" | ")`. -/
def titleSep : List Char := cs " | "

/-- Split a list at the first occurrence of `titleSep`, returning the
parts before and after it, or `none` when the separator is absent. -/
def breakOnSep : List Char → Option (List Char × List Char)
  | [] => none
  | c :: rest =>
    if startsWithB (c :: rest) titleSep then
      some ([], (c :: rest).drop titleSep.length)
    else
      match breakOnSep rest with
      | none => none
      | some (pre, post) => some (c :: pre, post)

/-- `t.split(" | ")[1]`: the text between the first separator and the
next one (or the end); `none` models the `undefined` lookup when the
split has a single part. -/
def titleSecondPart (t : List Char) : Option (List Char) :=
  match breakOnSep t with
  | none => none
  | some (_, post) =>
    match breakOnSep post with
    | none => some post
    | some (pre, _) => some pre

/-! ## `getMetaContent`, `getContent` and the record builder -/

/-- The six selector variants `getMetaContent` tries for a property
name, in order. -/
def metaSelectors (p : List Char) : List Selector :=
  [Selector.metaAttr (cs "property") p,
   Selector.metaAttr (cs "name") p,
   Selector.metaAttr (cs "property") (cs "og:" ++ p),
   Selector.metaAttr (cs "name") (cs "og:" ++ p),
   Selector.metaAttr (cs "property") (cs "twitter:" ++ p),
   Selector.metaAttr (cs "name") (cs "twitter:" ++ p)]

/-- `getMetaContent(property)`: the first selector with a matching
element wins and its `content` attribute is returned
(`getAttribute("content") || ""`); no element at all yields the empty
string. -/
def getMetaContent (doc : Node) (p : List Char) : List Char :=
  match findAcross doc (metaSelectors p) with
  | some el => (getAttr el (cs "content")).getD []
  | none => []

/-- The ordered container selectors `getContent` tries. -/
def contentSelectors : List Selector :=
  [Selector.tag (cs "article"),
   Selector.cls (cs "post-content"),
   Selector.cls (cs "entry-content"),
   Selector.cls (cs "content"),
   Selector.cls (cs "post"),
   Selector.tag (cs "main"),
   Selector.cls (cs "article-body"),
   Selector.cls (cs "markdown-section"),
   Selector.cls (cs "it-MdContent")]

/-- `getContent()`: first matching container selector, noise stripped,
trimmed text cut at 300 characters; otherwise the whole `body` with the
same stripping cut at 1000 characters; otherwise the empty string. -/
def getContent (doc : Node) : List Char :=
  match findAcross doc contentSelectors with
  | some el => (jsTrim (textContent (stripNoise el))).take 300
  | none =>
    match findFirst doc (Selector.tag (cs "body")) with
    | some body => (jsTrim (textContent (stripNoise body))).take 1000
    | none => []

/-- The output record of the extractor (the two optional flags of the
TypeScript interface are never set by this code and are omitted). -/
structure ArticleData where
  url : List Char
  siteName : List Char
  title : List Char
  description : List Char
  publishedAt : List Char
  thumbnail : List Char
  content : List Char
deriving DecidableEq, Repr

/-- Construction of the `articleData` record literal from the parsed
document.  `hostname` models `new URL(url).hostname` and `now` models
`new Date().toISOString()`. -/
def buildArticle (url hostname : List Char) (doc : Node) (now : List Char) :
    ArticleData :=
  { url := url
    siteName := truncateToVarCharLimit
      (strFalsyOr (getMetaContent doc (cs "site_name"))
        (strFalsyOr (getMetaContent doc (cs "og:site_name"))
          (optFalsyOr
            ((findFirst doc (Selector.tag (cs "title"))).bind
              (fun t => titleSecondPart (textContent t)))
            hostname)))
    title := truncateToVarCharLimit
      (strFalsyOr (getMetaContent doc (cs "title"))
        (strFalsyOr (getMetaContent doc (cs "og:title"))
          (optFalsyOr ((findFirst doc (Selector.tag (cs "h1"))).map textContent)
            (optFalsyOr
              ((findFirst doc (Selector.tag (cs "title"))).map textContent)
              (cs "タイトルなし")))))
    description := truncateToVarCharLimit
      (strFalsyOr (getMetaContent doc (cs "description"))
        (strFalsyOr (getMetaContent doc (cs "og:description"))
          (strFalsyOr (getMetaContent doc (cs "twitter:description")) [])))
    publishedAt :=
      strFalsyOr (getMetaContent doc (cs "article:modified_time"))
        (strFalsyOr (getMetaContent doc (cs "article:published_time"))
          (optFalsyOr
            ((findFirst doc (Selector.tag (cs "time"))).bind
              (fun t => getAttr t (cs "datetime")))
            now))
    thumbnail := normalizeText
      (strFalsyOr (getMetaContent doc (cs "image"))
        (strFalsyOr (getMetaContent doc (cs "og:image"))
          (strFalsyOr (getMetaContent doc (cs "twitter:image")) [])))
    content := normalizeText (getContent doc) }

/-! ## The two-stage fetch pipeline -/

/-- Outcome of the single static `fetch` attempt: a network error or
timeout, or a response with its `ok` flag (2xx status) and body text. -/
inductive FetchOutcome where
  | netError
  | response (ok : Bool) (body : List Char)

/-- The external world one invocation of `extractUrlData` interacts
with: the static fetch outcome, what `fetchWithPuppeteer` would yield
(rendered HTML, or a thrown error with its message), the HTML parser
(`new JSDOM`), and the current time. -/
structure World where
  fetchOutcome : FetchOutcome
  renderResult : Except (List Char) (List Char)
  parse : List Char → Node
  now : List Char

/-- Observable effect events of one invocation. -/
inductive Event where
  | staticFetch
  | render
deriving DecidableEq, Repr

/-- The error cases `extractUrlData` can throw: the missing-URL guard
(thrown before the `try` block), or the generic wrapper from the outer
`catch`. -/
inductive ExtractError where
  | missingUrl
  | extractionFailed (msg : List Char)
deriving DecidableEq, Repr

/-- The outer catch rethrows
`URL解析に失敗しました: ` followed by the original message. -/
def wrapMsg (m : List Char) : List Char :=
  cs "URL解析に失敗しました: " ++ m

/-- Whether the pipeline falls back to Puppeteer: always on fetch
failure or non-2xx status, otherwise when the heuristic fires on the
fetched body. -/
def usesPuppeteer (outcome : FetchOutcome) (hostname : List Char) : Bool :=
  match outcome with
  | FetchOutcome.netError => true
  | FetchOutcome.response ok body =>
    !ok || checkIfJavaScriptRequired body hostname

/-- The value of the local `html` after the inner `try` when Puppeteer
is not used (it can only be the successfully fetched body). -/
def fetchedHtml (outcome : FetchOutcome) : List Char :=
  match outcome with
  | FetchOutcome.netError => []
  | FetchOutcome.response ok body => if ok then body else []

/-- `extractUrlData(formData)`.  `urlField` is `formData.get("url")`
(`none` for a missing entry), `hostname` models `new URL(url).hostname`.
Returns the thrown error or the record, paired with the list of
side-effect events in order. -/
def extractUrlData (urlField : Option (List Char)) (hostname : List Char)
    (w : World) : Except ExtractError ArticleData × List Event :=
  match urlField with
  | none => (Except.error ExtractError.missingUrl, [])
  | some url =>
    if url.isEmpty then (Except.error ExtractError.missingUrl, [])
    else if usesPuppeteer w.fetchOutcome hostname then
      match w.renderResult with
      | Except.error m =>
        (Except.error (ExtractError.extractionFailed (wrapMsg m)),
         [Event.staticFetch, Event.render])
      | Except.ok h =>
        (Except.ok (buildArticle url hostname (w.parse h) w.now),
         [Event.staticFetch, Event.render])
    else
      (Except.ok
        (buildArticle url hostname (w.parse (fetchedHtml w.fetchOutcome)) w.now),
       [Event.staticFetch])

/-! ## The Puppeteer fetch and its try/finally -/

/-- Which awaited steps inside `fetchWithPuppeteer` succeed on a given
run; `html` is the serialized content on full success. -/
structure PupWorld where
  launchOk : Bool
  newPageOk : Bool
  setUAOk : Bool
  gotoOk : Bool
  contentOk : Bool
  html : List Char

/-- Resource and control events of one `fetchWithPuppeteer` run. -/
inductive PupEvent where
  | launch
  | close
  | ret
  | raise
deriving DecidableEq, Repr

/-- Result of the `try` body once the browser is up: the first failing
step throws, otherwise the rendered HTML is returned. -/
def pupBodyResult (w : PupWorld) : Except Unit (List Char) :=
  if !w.newPageOk then Except.error ()
  else if !w.setUAOk then Except.error ()
  else if !w.gotoOk then Except.error ()
  else if !w.contentOk then Except.error ()
  else Except.ok w.html

/-- Event trace of `fetchWithPuppeteer`.  If `launch` itself throws, the
`finally` sees an undefined `browser` and closes nothing; otherwise the
`finally` closes the browser before the function returns or the pending
exception propagates. -/
def fetchWithPuppeteer (w : PupWorld) : List PupEvent :=
  if !w.launchOk then [PupEvent.raise]
  else
    [PupEvent.launch, PupEvent.close,
     match pupBodyResult w with
     | Except.ok _ => PupEvent.ret
     | Except.error _ => PupEvent.raise]

/-! ## Whitespace-normal-form predicates

Spec-level characterization of `collapse runs to single spaces, then
trim`: every whitespace character in the result is a plain space, no two
whitespace characters are adjacent, and the result neither starts nor
ends with whitespace. -/

/-- Every whitespace character in the list is a plain space. -/
def wsOnlySpace (l : List Char) : Bool :=
  l.all (fun c => !isJsWhitespace c || c == ' ')

/-- No two adjacent characters are both whitespace. -/
def noAdjSpaces : List Char → Bool
  | a :: b :: rest => (!isJsWhitespace a || !isJsWhitespace b) && noAdjSpaces (b :: rest)
  | _ => true

/-- The first character, when present, is not whitespace. -/
def headNotWs : List Char → Bool
  | [] => true
  | c :: _ => !isJsWhitespace c

/-- The last character, when present, is not whitespace. -/
def lastNotWs : List Char → Bool
  | [] => true
  | [c] => !isJsWhitespace c
  | _ :: c :: rest => lastNotWs (c :: rest)

/-- Full normal form: single plain spaces separate nonempty whitespace-free
words, with none at either end. -/
def isSingleSpaceSeparated (l : List Char) : Bool :=
  wsOnlySpace l && noAdjSpaces l && headNotWs l && lastNotWs l

/-- Normal form minus the trailing-edge condition: what survives a hard
prefix cut of a normalized string. -/
def prefixNormalized (l : List Char) : Bool :=
  wsOnlySpace l && noAdjSpaces l && headNotWs l

theorem space_isJsWhitespace : isJsWhitespace ' ' = true := by decide

theorem wsOnlySpace_collapseWsAux (l : List Char) :
    ∀ b, wsOnlySpace (collapseWsAux l b) = true := by
  induction l with
  | nil => intro b; rfl
  | cons c rest ih =>
    intro b
    by_cases h : isJsWhitespace c = true
    · cases b <;> simp [collapseWsAux, h, wsOnlySpace, List.all_cons] <;>
        simpa [wsOnlySpace] using ih true
    · simp only [Bool.not_eq_true] at h
      simp [collapseWsAux, h, wsOnlySpace, List.all_cons]
      simpa [wsOnlySpace] using ih false

theorem headNotWs_collapseWsAux (l : List Char) :
    headNotWs (collapseWsAux l true) = true := by
  induction l with
  | nil => rfl
  | cons c rest ih =>
    by_cases h : isJsWhitespace c = true
    · simpa [collapseWsAux, h] using ih
    · simp only [Bool.not_eq_true] at h
      simp [collapseWsAux, h, headNotWs]

theorem noAdjSpaces_tail {a : Char} {l : List Char}
    (h : noAdjSpaces (a :: l) = true) : noAdjSpaces l = true := by
  cases l with
  | nil => rfl
  | cons b rest =>
    simp only [noAdjSpaces, Bool.and_eq_true] at h
    exact h.2

theorem noAdjSpaces_collapseWsAux (l : List Char) :
    ∀ b, noAdjSpaces (collapseWsAux l b) = true := by
  induction l with
  | nil => intro b; rfl
  | cons c rest ih =>
    intro b
    by_cases h : isJsWhitespace c = true
    · cases b with
      | true => simpa [collapseWsAux, h] using ih true
      | false =>
        simp only [collapseWsAux, h, if_true, if_false, Bool.false_eq_true]
        cases hX : collapseWsAux rest true with
        | nil => rfl
        | cons d xs =>
          have hd : (!isJsWhitespace d) = true := by
            have := headNotWs_collapseWsAux rest
            rw [hX] at this
            simpa [headNotWs] using this
          have hno : noAdjSpaces (d :: xs) = true := by
            have := ih true; rwa [hX] at this
          simp [noAdjSpaces, hd, hno]
    · simp only [Bool.not_eq_true] at h
      simp only [collapseWsAux, h, Bool.false_eq_true, if_false]
      cases hX : collapseWsAux rest false with
      | nil => rfl
      | cons d xs =>
        have hno : noAdjSpaces (d :: xs) = true := by
          have := ih false; rwa [hX] at this
        simp [noAdjSpaces, h, hno]

theorem noAdjSpaces_dropWhile (p : Char → Bool) (l : List Char)
    (h : noAdjSpaces l = true) : noAdjSpaces (l.dropWhile p) = true := by
  induction l with
  | nil => rfl
  | cons c rest ih =>
    by_cases hp : p c = true
    · simpa [List.dropWhile, hp] using ih (noAdjSpaces_tail h)
    · simp only [Bool.not_eq_true] at hp
      simpa [List.dropWhile, hp] using h

theorem headNotWs_dropWhile (l : List Char) :
    headNotWs (l.dropWhile isJsWhitespace) = true := by
  induction l with
  | nil => rfl
  | cons c rest ih =>
    by_cases h : isJsWhitespace c = true
    · simpa [List.dropWhile, h] using ih
    · simp only [Bool.not_eq_true] at h
      simp [List.dropWhile, h, headNotWs]

theorem dropTrailingWs_head? (l : List Char)
    (h : dropTrailingWs l ≠ []) : (dropTrailingWs l).head? = l.head? := by
  cases l with
  | nil => rfl
  | cons c rest =>
    simp only [dropTrailingWs] at h ⊢
    cases hr : dropTrailingWs rest with
    | nil =>
      rw [hr] at h
      by_cases hc : isJsWhitespace c = true
      · simp [hc] at h
      · simp only [Bool.not_eq_true] at hc
        simp [hc]
    | cons d xs => rfl

theorem noAdjSpaces_dropTrailingWs (l : List Char)
    (h : noAdjSpaces l = true) : noAdjSpaces (dropTrailingWs l) = true := by
  induction l with
  | nil => rfl
  | cons c rest ih =>
    simp only [dropTrailingWs]
    cases hr : dropTrailingWs rest with
    | nil =>
      show noAdjSpaces (if isJsWhitespace c = true then [] else [c]) = true
      by_cases hc : isJsWhitespace c = true
      · rw [if_pos hc]
        rfl
      · rw [if_neg hc]
        rfl
    | cons d xs =>
      have hrest : noAdjSpaces (d :: xs) = true := by
        have := ih (noAdjSpaces_tail h); rwa [hr] at this
      cases rest with
      | nil => simp [dropTrailingWs] at hr
      | cons e rest2 =>
        have hne : dropTrailingWs (e :: rest2) ≠ [] := by rw [hr]; simp
        have hhead := dropTrailingWs_head? (e :: rest2) hne
        rw [hr] at hhead
        have hde : d = e := by simpa using hhead
        have hpair : (!isJsWhitespace c || !isJsWhitespace e) = true := by
          simp only [noAdjSpaces, Bool.and_eq_true] at h
          exact h.1
        subst hde
        simp [noAdjSpaces, hpair, hrest]

theorem lastNotWs_dropTrailingWs (l : List Char) :
    lastNotWs (dropTrailingWs l) = true := by
  induction l with
  | nil => rfl
  | cons c rest ih =>
    simp only [dropTrailingWs]
    cases hr : dropTrailingWs rest with
    | nil =>
      by_cases hc : isJsWhitespace c = true
      · simp [hc, lastNotWs]
      · simp only [Bool.not_eq_true] at hc
        simp [hc, lastNotWs]
    | cons d xs =>
      have : lastNotWs (d :: xs) = true := by rw [← hr]; exact ih
      simpa [lastNotWs] using this

theorem headNotWs_dropTrailingWs (l : List Char)
    (h : headNotWs l = true) : headNotWs (dropTrailingWs l) = true := by
  cases hr : dropTrailingWs l with
  | nil => rfl
  | cons d xs =>
    have hne : dropTrailingWs l ≠ [] := by rw [hr]; simp
    have hhead := dropTrailingWs_head? l hne
    rw [hr] at hhead
    cases l with
    | nil => simp at hhead
    | cons c rest =>
      have : d = c := by simpa using hhead
      subst this
      simpa [headNotWs] using h

theorem all_dropTrailingWs (q : Char → Bool) (l : List Char)
    (h : l.all q = true) : (dropTrailingWs l).all q = true := by
  induction l with
  | nil => rfl
  | cons c rest ih =>
    simp only [List.all_cons, Bool.and_eq_true] at h
    simp only [dropTrailingWs]
    cases hr : dropTrailingWs rest with
    | nil =>
      by_cases hc : isJsWhitespace c = true <;> simp [hc, List.all_cons, h.1]
    | cons d xs =>
      have : (d :: xs).all q = true := by rw [← hr]; exact ih h.2
      simp [List.all_cons, h.1, this]

theorem all_dropWhile (q p : Char → Bool) (l : List Char)
    (h : l.all q = true) : (l.dropWhile p).all q = true := by
  induction l with
  | nil => rfl
  | cons c rest ih =>
    simp only [List.all_cons, Bool.and_eq_true] at h
    by_cases hp : p c = true
    · simpa [List.dropWhile, hp] using ih h.2
    · simp only [Bool.not_eq_true] at hp
      simp [List.dropWhile, hp, List.all_cons, h.1, h.2]

theorem jsTrim_singleSpaceSeparated (l : List Char)
    (hws : wsOnlySpace l = true) (hadj : noAdjSpaces l = true) :
    isSingleSpaceSeparated (jsTrim l) = true := by
  have h1 : wsOnlySpace (jsTrim l) = true :=
    all_dropTrailingWs _ _ (all_dropWhile _ _ l hws)
  have h2 : noAdjSpaces (jsTrim l) = true :=
    noAdjSpaces_dropTrailingWs _ (noAdjSpaces_dropWhile _ _ hadj)
  have h3 : headNotWs (jsTrim l) = true :=
    headNotWs_dropTrailingWs _ (headNotWs_dropWhile l)
  have h4 : lastNotWs (jsTrim l) = true := lastNotWs_dropTrailingWs _
  simp [isSingleSpaceSeparated, h1, h2, h3, h4]

theorem normalizeText_singleSpaceSeparated (s : List Char) :
    isSingleSpaceSeparated (normalizeText s) = true := by
  by_cases h : s.isEmpty = true
  · simp [normalizeText, h]; rfl
  · simp only [Bool.not_eq_true] at h
    simp only [normalizeText, h, Bool.false_eq_true, if_false]
    exact jsTrim_singleSpaceSeparated _
      (wsOnlySpace_collapseWsAux s false) (noAdjSpaces_collapseWsAux s false)

/-! ## Normalization preserves the non-whitespace content -/

theorem filter_collapseWsAux (l : List Char) :
    ∀ b, (collapseWsAux l b).filter (fun c => !isJsWhitespace c)
      = l.filter (fun c => !isJsWhitespace c) := by
  induction l with
  | nil => intro b; rfl
  | cons c rest ih =>
    intro b
    by_cases h : isJsWhitespace c = true
    · cases b with
      | true => simp [collapseWsAux, h, List.filter, ih true]
      | false =>
        simp [collapseWsAux, h, List.filter, space_isJsWhitespace, ih true]
    · simp only [Bool.not_eq_true] at h
      simp [collapseWsAux, h, List.filter, ih false]

theorem filter_dropWhileWs (l : List Char) :
    (l.dropWhile isJsWhitespace).filter (fun c => !isJsWhitespace c)
      = l.filter (fun c => !isJsWhitespace c) := by
  induction l with
  | nil => rfl
  | cons c rest ih =>
    by_cases h : isJsWhitespace c = true
    · simp [List.dropWhile, h, List.filter, ih]
    · simp only [Bool.not_eq_true] at h
      simp [List.dropWhile, h]

theorem filter_dropTrailingWs (l : List Char) :
    (dropTrailingWs l).filter (fun c => !isJsWhitespace c)
      = l.filter (fun c => !isJsWhitespace c) := by
  induction l with
  | nil => rfl
  | cons c rest ih =>
    simp only [dropTrailingWs]
    cases hr : dropTrailingWs rest with
    | nil =>
      have hrest : rest.filter (fun c => !isJsWhitespace c) = [] := by
        rw [← ih, hr]; rfl
      show List.filter (fun c => !isJsWhitespace c)
          (if isJsWhitespace c = true then [] else [c])
        = List.filter (fun c => !isJsWhitespace c) (c :: rest)
      by_cases h : isJsWhitespace c = true
      · simp [h, List.filter_cons, hrest]
      · simp only [Bool.not_eq_true] at h
        simp [h, List.filter_cons, hrest]
    | cons d xs =>
      have hrest : (d :: xs).filter (fun c => !isJsWhitespace c)
          = rest.filter (fun c => !isJsWhitespace c) := by
        rw [← ih, hr]
      by_cases h : isJsWhitespace c = true
      · simp [h, List.filter_cons, hrest]
      · simp only [Bool.not_eq_true] at h
        simp [h, List.filter_cons, hrest]

theorem normalizeText_filter (s : List Char) :
    (normalizeText s).filter (fun c => !isJsWhitespace c)
      = s.filter (fun c => !isJsWhitespace c) := by
  by_cases h : s.isEmpty = true
  · rw [List.isEmpty_iff] at h
    subst h; rfl
  · simp only [Bool.not_eq_true] at h
    simp only [normalizeText, h, Bool.false_eq_true, if_false, jsTrim, collapseWs]
    rw [filter_dropTrailingWs, filter_dropWhileWs, filter_collapseWsAux]

/-! ## Normalization fixes whitespace-free strings -/

theorem collapseWsAux_of_nonWs (l : List Char)
    (h : l.all (fun c => !isJsWhitespace c) = true) :
    ∀ b, collapseWsAux l b = l := by
  induction l with
  | nil => intro b; rfl
  | cons c rest ih =>
    intro b
    simp only [List.all_cons, Bool.and_eq_true] at h
    have hc : isJsWhitespace c = false := by
      cases hx : isJsWhitespace c
      · rfl
      · rw [hx] at h; simp at h
    simp [collapseWsAux, hc, ih h.2]

theorem dropWhileWs_of_nonWs (l : List Char)
    (h : l.all (fun c => !isJsWhitespace c) = true) :
    l.dropWhile isJsWhitespace = l := by
  cases l with
  | nil => rfl
  | cons c rest =>
    simp only [List.all_cons, Bool.and_eq_true] at h
    have hc : isJsWhitespace c = false := by
      cases hx : isJsWhitespace c
      · rfl
      · rw [hx] at h; simp at h
    simp [List.dropWhile, hc]

theorem dropTrailingWs_of_nonWs (l : List Char)
    (h : l.all (fun c => !isJsWhitespace c) = true) :
    dropTrailingWs l = l := by
  induction l with
  | nil => rfl
  | cons c rest ih =>
    simp only [List.all_cons, Bool.and_eq_true] at h
    have hc : isJsWhitespace c = false := by
      cases hx : isJsWhitespace c
      · rfl
      · rw [hx] at h; simp at h
    simp only [dropTrailingWs, ih h.2]
    cases rest with
    | nil => simp [hc]
    | cons d xs => rfl

theorem normalizeText_of_nonWs (l : List Char)
    (h : l.all (fun c => !isJsWhitespace c) = true) :
    normalizeText l = l := by
  by_cases he : l.isEmpty = true
  · rw [List.isEmpty_iff] at he
    subst he; rfl
  · simp only [Bool.not_eq_true] at he
    simp only [normalizeText, he, Bool.false_eq_true, if_false, jsTrim, collapseWs]
    rw [collapseWsAux_of_nonWs l h, dropWhileWs_of_nonWs l h,
      dropTrailingWs_of_nonWs l h]

theorem truncateToVarCharLimit_of_short_nonWs (l : List Char)
    (h : l.all (fun c => !isJsWhitespace c) = true) (hlen : l.length ≤ 255) :
    truncateToVarCharLimit l = l := by
  by_cases he : l.isEmpty = true
  · rw [List.isEmpty_iff] at he
    subst he; rfl
  · simp only [Bool.not_eq_true] at he
    simp only [truncateToVarCharLimit, he, Bool.false_eq_true, if_false]
    have hn : jsTrim (collapseWs l) = l := by
      have := normalizeText_of_nonWs l h
      simpa [normalizeText, he] using this
    rw [hn, List.take_of_length_le hlen]

/-! ## Prefix cuts of normalized strings -/

theorem all_take (q : Char → Bool) (l : List Char) (n : Nat)
    (h : l.all q = true) : (l.take n).all q = true := by
  induction l generalizing n with
  | nil => simp
  | cons c rest ih =>
    cases n with
    | zero => rfl
    | succ m =>
      simp only [List.all_cons, Bool.and_eq_true] at h
      simp [List.take, List.all_cons, h.1, ih m h.2]

theorem noAdjSpaces_take (l : List Char) (n : Nat)
    (h : noAdjSpaces l = true) : noAdjSpaces (l.take n) = true := by
  induction l generalizing n with
  | nil => simp; rfl
  | cons c rest ih =>
    cases n with
    | zero => rfl
    | succ m =>
      simp only [List.take]
      cases rest with
      | nil => simp; rfl
      | cons d xs =>
        cases m with
        | zero => rfl
        | succ k =>
          simp only [noAdjSpaces, Bool.and_eq_true] at h
          have := ih (Nat.succ k) h.2
          simp only [List.take] at this
          simp only [List.take, noAdjSpaces, Bool.and_eq_true]
          exact ⟨h.1, this⟩

theorem headNotWs_take (l : List Char) (n : Nat)
    (h : headNotWs l = true) : headNotWs (l.take n) = true := by
  cases l with
  | nil => simp; rfl
  | cons c rest =>
    cases n with
    | zero => rfl
    | succ m => simpa [List.take, headNotWs] using h

theorem truncateToVarCharLimit_eq_take (s : List Char) :
    truncateToVarCharLimit s = (normalizeText s).take 255 := by
  by_cases h : s.isEmpty = true
  · simp [truncateToVarCharLimit, normalizeText, h]
  · simp only [Bool.not_eq_true] at h
    simp [truncateToVarCharLimit, normalizeText, h]

theorem truncateToVarCharLimit_prefixNormalized (s : List Char) :
    prefixNormalized (truncateToVarCharLimit s) = true := by
  have hn := normalizeText_singleSpaceSeparated s
  simp only [isSingleSpaceSeparated, Bool.and_eq_true] at hn
  rw [truncateToVarCharLimit_eq_take]
  simp only [prefixNormalized, Bool.and_eq_true]
  exact ⟨⟨all_take _ _ _ hn.1.1.1, noAdjSpaces_take _ _ hn.1.1.2⟩,
    headNotWs_take _ _ hn.1.2⟩

theorem truncateToVarCharLimit_length_le (s : List Char) :
    (truncateToVarCharLimit s).length ≤ 255 := by
  rw [truncateToVarCharLimit_eq_take]
  exact List.length_take_le 255 (normalizeText s)

/-! ## Helper lemmas about the heuristic and the pipeline -/

theorem startsWithB_self : ∀ l : List Char, startsWithB l l = true
  | [] => rfl
  | c :: rest => by simp [startsWithB, startsWithB_self rest]

theorem includesB_self (l : List Char) : includesB l l = true := by
  cases l with
  | nil => rfl
  | cons c rest => simp [includesB, startsWithB_self]

theorem check_of_domain_sub (html hostname : List Char)
    (h : ∃ d ∈ jsRequiredDomains, includesB hostname d = true) :
    checkIfJavaScriptRequired html hostname = true := by
  obtain ⟨d, hd, hinc⟩ := h
  simp only [checkIfJavaScriptRequired, Bool.or_eq_true, List.any_eq_true]
  exact Or.inl ⟨d, hd, hinc⟩

theorem usesPuppeteer_of_check (hostname : List Char) (outcome : FetchOutcome)
    (h : ∀ html, checkIfJavaScriptRequired html hostname = true) :
    usesPuppeteer outcome hostname = true := by
  cases outcome with
  | netError => rfl
  | response ok body => simp [usesPuppeteer, h body]

theorem isEmpty_false_of_ne {url : List Char} (hurl : url ≠ []) :
    url.isEmpty = false := by
  cases url with
  | nil => exact absurd rfl hurl
  | cons c rest => rfl

theorem render_mem_of_usesPuppeteer (url hostname : List Char) (w : World)
    (hurl : url ≠ []) (hp : usesPuppeteer w.fetchOutcome hostname = true) :
    Event.render ∈ (extractUrlData (some url) hostname w).2 := by
  have hemp := isEmpty_false_of_ne hurl
  cases hr : w.renderResult with
  | error m => simp [extractUrlData, hemp, hp, hr]
  | ok h => simp [extractUrlData, hemp, hp, hr]

/-! ## The claims -/

/-- C1: the display-field truncation function first collapses every run of
whitespace (newlines included) to a single space and trims the ends — the
normalized form is single-space separated and keeps exactly the
non-whitespace characters of the input, and `"a\n\n  b"` maps to
`"a b"` — and then hard-cuts at 255 characters, so a 300-character input
whose normalization does not shorten it yields exactly 255 characters. -/
theorem claim_C1 (s : List Char) :
    truncateToVarCharLimit s = (normalizeText s).take 255
    ∧ isSingleSpaceSeparated (normalizeText s) = true
    ∧ (normalizeText s).filter (fun c => !isJsWhitespace c)
        = s.filter (fun c => !isJsWhitespace c)
    ∧ truncateToVarCharLimit (cs "a\n\n  b") = cs "a b"
    ∧ (s.length = 300 → (normalizeText s).length = s.length →
        (truncateToVarCharLimit s).length = 255) := by
  refine ⟨truncateToVarCharLimit_eq_take s, normalizeText_singleSpaceSeparated s,
    normalizeText_filter s, by decide, ?_⟩
  intro h300 hlen
  rw [truncateToVarCharLimit_eq_take, List.length_take, hlen, h300]
  rfl

/-- Witness for C1 at the 300-character input `aaa…a`. -/
theorem claim_C1_witness :
    (truncateToVarCharLimit (List.replicate 300 'a')).length = 255 :=
  (claim_C1 (List.replicate 300 'a')).2.2.2.2 (by simp) (by decide)

/-- C2: for every URL whose hostname is one of the allow-listed
JS-required domains, the heuristic fires on any HTML and the pipeline
invokes the renderer whatever the static fetch produced. -/
theorem claim_C2 (url hostname html : List Char) (w : World)
    (hmem : hostname ∈ jsRequiredDomains) (hurl : url ≠ []) :
    checkIfJavaScriptRequired html hostname = true
    ∧ Event.render ∈ (extractUrlData (some url) hostname w).2 := by
  have hcheck : ∀ h, checkIfJavaScriptRequired h hostname = true := fun h =>
    check_of_domain_sub h hostname ⟨hostname, hmem, includesB_self hostname⟩
  exact ⟨hcheck html,
    render_mem_of_usesPuppeteer url hostname w hurl
      (usesPuppeteer_of_check hostname w.fetchOutcome hcheck)⟩

/-- Shared concrete world: a successful 2xx static fetch with an empty,
marker-free body, and a renderer that would return empty HTML. -/
def exampleWorld : World :=
  { fetchOutcome := FetchOutcome.response true []
    renderResult := Except.ok []
    parse := fun _ => Node.elem (cs "html") [] [] NodeList.nil
    now := cs "2026-10-11T00:00:00.000Z" }

/-- Witness for C2 at hostname `qiita.com` with a successful marker-free
static fetch. -/
theorem claim_C2_witness :
    checkIfJavaScriptRequired [] (cs "qiita.com") = true
    ∧ Event.render ∈
        (extractUrlData (some (cs "https://qiita.com/a")) (cs "qiita.com")
          exampleWorld).2 :=
  claim_C2 (cs "https://qiita.com/a") (cs "qiita.com") [] exampleWorld
    (by decide) (by decide)

/-- C3 as stated is false: `qiita.com` answers a 2xx response whose empty
body contains none of the framework markers, yet the renderer is
invoked, because the hostname allow-list is checked first. -/
theorem claim_C3_counterexample :
    (∀ i ∈ jsIndicators, includesB [] i = false)
    ∧ Event.render ∈
        (extractUrlData (some (cs "https://qiita.com/a")) (cs "qiita.com")
          exampleWorld).2 := by
  constructor
  · decide
  · decide

/-- C3 (amended): for every URL whose static fetch returns a 2xx response,
whose response body contains none of the framework-mount markers, AND
whose hostname does not contain any allow-listed domain as a substring,
the renderer is never invoked. -/
theorem claim_C3_amended (urlField : Option (List Char))
    (hostname body : List Char) (w : World)
    (hok : w.fetchOutcome = FetchOutcome.response true body)
    (hmark : ∀ i ∈ jsIndicators, includesB body i = false)
    (hdom : ∀ d ∈ jsRequiredDomains, includesB hostname d = false) :
    Event.render ∉ (extractUrlData urlField hostname w).2 := by
  have hcheck : checkIfJavaScriptRequired body hostname = false := by
    simp only [checkIfJavaScriptRequired, Bool.or_eq_false_iff,
      List.any_eq_false]
    constructor
    · intro d hd
      simp [hdom d hd]
    · intro i hi
      simp [hmark i hi]
  have hpup : usesPuppeteer w.fetchOutcome hostname = false := by
    rw [hok]
    simp [usesPuppeteer, hcheck]
  cases urlField with
  | none => simp [extractUrlData]
  | some url =>
    by_cases hemp : url.isEmpty = true
    · simp [extractUrlData, hemp]
    · simp only [Bool.not_eq_true] at hemp
      simp [extractUrlData, hemp, hpup]

/-- Witness for the amended C3: a plain hostname with a marker-free 2xx
body never reaches the renderer. -/
theorem claim_C3_witness :
    Event.render ∉
      (extractUrlData (some (cs "https://example.org/")) (cs "example.org")
        exampleWorld).2 :=
  claim_C3_amended (some (cs "https://example.org/")) (cs "example.org") []
    exampleWorld rfl (by decide) (by decide)

/-- C10: the allow-list test is substring containment on the hostname,
so any hostname that merely contains an allow-listed domain (such as
`qiita.com.evil.example` or `notnote.com`) makes the heuristic return
true and the pipeline invoke the renderer. -/
theorem claim_C10 (html hostname url : List Char) (w : World)
    (hsub : ∃ d ∈ jsRequiredDomains, includesB hostname d = true)
    (hurl : url ≠ []) :
    checkIfJavaScriptRequired html hostname = true
    ∧ Event.render ∈ (extractUrlData (some url) hostname w).2 := by
  have hcheck : ∀ h, checkIfJavaScriptRequired h hostname = true := fun h =>
    check_of_domain_sub h hostname hsub
  exact ⟨hcheck html,
    render_mem_of_usesPuppeteer url hostname w hurl
      (usesPuppeteer_of_check hostname w.fetchOutcome hcheck)⟩

/-- Witness for C10 at the hostname `qiita.com.evil.example`, which is
not an allow-listed domain but contains one as a substring. -/
theorem claim_C10_witness :
    checkIfJavaScriptRequired [] (cs "qiita.com.evil.example") = true
    ∧ Event.render ∈
        (extractUrlData (some (cs "https://qiita.com.evil.example/"))
          (cs "qiita.com.evil.example") exampleWorld).2 :=
  claim_C10 [] (cs "qiita.com.evil.example")
    (cs "https://qiita.com.evil.example/") exampleWorld
    ⟨cs "qiita.com", by decide, by decide⟩ (by decide)

/-- C4: a missing or empty URL fails immediately with the missing-URL
error and no fetch or render event; any other thrown error is the single
generic wrapper embedding the original message of the renderer failure;
and a successful return is always a complete record built from one
parsed HTML document. -/
theorem claim_C4 (urlField : Option (List Char)) (hostname : List Char)
    (w : World) :
    ((urlField = none ∨ urlField = some []) →
      extractUrlData urlField hostname w
        = (Except.error ExtractError.missingUrl, []))
    ∧ (∀ e evs, extractUrlData urlField hostname w = (Except.error e, evs) →
        e = ExtractError.missingUrl
        ∨ ∃ m, e = ExtractError.extractionFailed (wrapMsg m)
            ∧ w.renderResult = Except.error m)
    ∧ (∀ a evs, extractUrlData urlField hostname w = (Except.ok a, evs) →
        ∃ url h, urlField = some url
          ∧ a = buildArticle url hostname (w.parse h) w.now) := by
  refine ⟨?_, ?_, ?_⟩
  · rintro (rfl | rfl) <;> rfl
  · intro e evs heq
    cases urlField with
    | none =>
      simp only [extractUrlData, Prod.mk.injEq, Except.error.injEq] at heq
      exact Or.inl heq.1.symm
    | some url =>
      by_cases hemp : url.isEmpty = true
      · simp only [extractUrlData, hemp, if_true, Prod.mk.injEq,
          Except.error.injEq] at heq
        exact Or.inl heq.1.symm
      · simp only [Bool.not_eq_true] at hemp
        cases hpup : usesPuppeteer w.fetchOutcome hostname with
        | false =>
          simp [extractUrlData, hemp, hpup] at heq
        | true =>
          cases hr : w.renderResult with
          | error m =>
            simp only [extractUrlData, hemp, hpup, hr, Bool.false_eq_true,
              if_false, if_true, Prod.mk.injEq, Except.error.injEq] at heq
            exact Or.inr ⟨m, heq.1.symm, rfl⟩
          | ok h =>
            simp [extractUrlData, hemp, hpup, hr] at heq
  · intro a evs heq
    cases urlField with
    | none => simp [extractUrlData] at heq
    | some url =>
      by_cases hemp : url.isEmpty = true
      · simp [extractUrlData, hemp] at heq
      · simp only [Bool.not_eq_true] at hemp
        cases hpup : usesPuppeteer w.fetchOutcome hostname with
        | false =>
          simp only [extractUrlData, hemp, hpup, Bool.false_eq_true, if_false,
            Prod.mk.injEq, Except.ok.injEq] at heq
          exact ⟨url, fetchedHtml w.fetchOutcome, rfl, heq.1.symm⟩
        | true =>
          cases hr : w.renderResult with
          | error m =>
            simp [extractUrlData, hemp, hpup, hr] at heq
          | ok h =>
            simp only [extractUrlData, hemp, hpup, hr, Bool.false_eq_true,
              if_false, if_true, Prod.mk.injEq, Except.ok.injEq] at heq
            exact ⟨url, h, rfl, heq.1.symm⟩

/-- Witness for C4: an absent URL field yields the missing-URL error and
no effect events. -/
theorem claim_C4_witness :
    extractUrlData none (cs "example.org") exampleWorld
      = (Except.error ExtractError.missingUrl, []) :=
  (claim_C4 none (cs "example.org") exampleWorld).1 (Or.inl rfl)

/-- C5: when the static fetch fails with a network error or returns a
non-2xx status, the pipeline performs exactly one static fetch (no
retry), falls back to the renderer, and still returns a record when the
render succeeds. -/
theorem claim_C5 (url hostname : List Char) (w : World) (hurl : url ≠ [])
    (hfail : w.fetchOutcome = FetchOutcome.netError
      ∨ ∃ body, w.fetchOutcome = FetchOutcome.response false body) :
    (extractUrlData (some url) hostname w).2
        = [Event.staticFetch, Event.render]
    ∧ (extractUrlData (some url) hostname w).2.count Event.staticFetch = 1
    ∧ (∀ h, w.renderResult = Except.ok h →
        (extractUrlData (some url) hostname w).1
          = Except.ok (buildArticle url hostname (w.parse h) w.now)) := by
  have hemp := isEmpty_false_of_ne hurl
  have hpup : usesPuppeteer w.fetchOutcome hostname = true := by
    rcases hfail with hne | ⟨body, hresp⟩
    · rw [hne]; rfl
    · rw [hresp]; rfl
  cases hr : w.renderResult with
  | error m =>
    refine ⟨by simp [extractUrlData, hemp, hpup, hr], by
      simp [extractUrlData, hemp, hpup, hr], ?_⟩
    intro h hok
    cases hok
  | ok h0 =>
    refine ⟨by simp [extractUrlData, hemp, hpup, hr], by
      simp [extractUrlData, hemp, hpup, hr], ?_⟩
    intro h hok
    cases hok
    simp [extractUrlData, hemp, hpup, hr]

/-- Shared concrete world where the static fetch fails with a network
error and the renderer succeeds with empty HTML. -/
def failWorld : World :=
  { fetchOutcome := FetchOutcome.netError
    renderResult := Except.ok []
    parse := fun _ => Node.elem (cs "html") [] [] NodeList.nil
    now := cs "2026-10-11T00:00:00.000Z" }

/-- Witness for C5 at a network-error fetch. -/
theorem claim_C5_witness :
    (extractUrlData (some (cs "https://example.org/")) (cs "example.org")
        failWorld).2
      = [Event.staticFetch, Event.render] :=
  (claim_C5 (cs "https://example.org/") (cs "example.org") failWorld
    (by decide) (Or.inl rfl)).1

/-- C6: body extraction returns, for the first matching container
selector, the noise-stripped trimmed text cut at 300 characters; with no
matching selector it returns the noise-stripped trimmed body text cut at
1000 characters; and with no body it returns the empty string. -/
theorem claim_C6 (doc : Node) :
    (∀ el, findAcross doc contentSelectors = some el →
      getContent doc = (jsTrim (textContent (stripNoise el))).take 300
      ∧ (getContent doc).length ≤ 300)
    ∧ (findAcross doc contentSelectors = none →
      (∀ b, findFirst doc (Selector.tag (cs "body")) = some b →
        getContent doc = (jsTrim (textContent (stripNoise b))).take 1000
        ∧ (getContent doc).length ≤ 1000)
      ∧ (findFirst doc (Selector.tag (cs "body")) = none →
        getContent doc = [])) := by
  constructor
  · intro el hel
    constructor
    · simp [getContent, hel]
    · simp only [getContent, hel]
      exact List.length_take_le 300 _
  · intro hnone
    constructor
    · intro b hb
      constructor
      · simp [getContent, hnone, hb]
      · simp only [getContent, hnone, hb]
        exact List.length_take_le 1000 _
    · intro hb
      simp [getContent, hnone, hb]

/-- A small document whose only container match is its `article`
element. -/
def articleEl : Node :=
  Node.elem (cs "article") [] []
    (NodeList.cons (Node.text (cs "  hello world  ")) NodeList.nil)

/-- Root document wrapping `articleEl`. -/
def articleDoc : Node :=
  Node.elem (cs "html") [] [] (NodeList.cons articleEl NodeList.nil)

/-- Witness for C6: on `articleDoc` the article branch is taken. -/
theorem claim_C6_witness :
    getContent articleDoc
      = (jsTrim (textContent (stripNoise articleEl))).take 300
    ∧ (getContent articleDoc).length ≤ 300 :=
  (claim_C6 articleDoc).1 articleEl rfl

/-! ## Claim C7: static defaults -/

mutual

/-- Whether the tree contains an element with the given tag. -/
def containsTag : Node → List Char → Bool
  | Node.text _, _ => false
  | Node.elem t _ _ ch, tag => t == tag || containsTagList ch tag

/-- Whether the forest contains an element with the given tag. -/
def containsTagList : NodeList → List Char → Bool
  | NodeList.nil, _ => false
  | NodeList.cons n rest, tag => containsTag n tag || containsTagList rest tag

end

mutual

theorem findFirst_meta_none : ∀ (n : Node) (a v : List Char),
    containsTag n (cs "meta") = false →
    findFirst n (Selector.metaAttr a v) = none
  | Node.text _, _, _, _ => rfl
  | Node.elem t cl ats ch, a, v, h => by
    simp only [containsTag, Bool.or_eq_false_iff] at h
    have hm : matchesSel (Node.elem t cl ats ch) (Selector.metaAttr a v)
        = false := by
      simp [matchesSel, h.1]
    simp only [findFirst, hm, Bool.false_eq_true, if_false]
    exact findFirstList_meta_none ch a v h.2

theorem findFirstList_meta_none : ∀ (l : NodeList) (a v : List Char),
    containsTagList l (cs "meta") = false →
    findFirstList l (Selector.metaAttr a v) = none
  | NodeList.nil, _, _, _ => rfl
  | NodeList.cons n rest, a, v, h => by
    simp only [containsTagList, Bool.or_eq_false_iff] at h
    simp only [findFirstList, findFirst_meta_none n a v h.1]
    exact findFirstList_meta_none rest a v h.2

end

theorem getMetaContent_none (doc : Node) (p : List Char)
    (h : containsTag doc (cs "meta") = false) :
    getMetaContent doc p = [] := by
  have hf : ∀ a v, findFirst doc (Selector.metaAttr a v) = none := fun a v =>
    findFirst_meta_none doc a v h
  simp [getMetaContent, metaSelectors, findAcross, hf]

theorem truncate_title_default :
    truncateToVarCharLimit (cs "タイトルなし") = cs "タイトルなし" := by decide

/-- C7: in a document with no meta tags and no h1, title or time
elements, every field falls back to its static default: the fixed
placeholder title, empty description and thumbnail, the freshly
generated current-time ISO-8601 timestamp (modelled by `now`), and the
hostname of the input URL as site name. -/
theorem claim_C7 (url hostname now : List Char) (doc : Node)
    (hmeta : containsTag doc (cs "meta") = false)
    (hh1 : findFirst doc (Selector.tag (cs "h1")) = none)
    (htitle : findFirst doc (Selector.tag (cs "title")) = none)
    (htime : findFirst doc (Selector.tag (cs "time")) = none)
    (hhostWs : hostname.all (fun c => !isJsWhitespace c) = true)
    (hhostLen : hostname.length ≤ 255) :
    (buildArticle url hostname doc now).title = cs "タイトルなし"
    ∧ (buildArticle url hostname doc now).description = []
    ∧ (buildArticle url hostname doc now).thumbnail = []
    ∧ (buildArticle url hostname doc now).publishedAt = now
    ∧ (buildArticle url hostname doc now).siteName = hostname := by
  have hm : ∀ p, getMetaContent doc p = [] := fun p =>
    getMetaContent_none doc p hmeta
  refine ⟨?_, ?_, ?_, ?_, ?_⟩
  · simp [buildArticle, hm, hh1, htitle, strFalsyOr, optFalsyOr,
      truncate_title_default]
  · simp [buildArticle, hm, strFalsyOr]; rfl
  · simp [buildArticle, hm, strFalsyOr]; rfl
  · simp [buildArticle, hm, htime, strFalsyOr, optFalsyOr]
  · simp [buildArticle, hm, htitle, strFalsyOr, optFalsyOr,
      truncateToVarCharLimit_of_short_nonWs hostname hhostWs hhostLen]

/-- An empty document: a bare html element. -/
def emptyDoc : Node := Node.elem (cs "html") [] [] NodeList.nil

/-- Witness for C7 on the bare document. -/
theorem claim_C7_witness :
    (buildArticle (cs "https://example.org/") (cs "example.org") emptyDoc
        (cs "2026-10-11T00:00:00.000Z")).title = cs "タイトルなし"
    ∧ (buildArticle (cs "https://example.org/") (cs "example.org") emptyDoc
        (cs "2026-10-11T00:00:00.000Z")).description = []
    ∧ (buildArticle (cs "https://example.org/") (cs "example.org") emptyDoc
        (cs "2026-10-11T00:00:00.000Z")).thumbnail = []
    ∧ (buildArticle (cs "https://example.org/") (cs "example.org") emptyDoc
        (cs "2026-10-11T00:00:00.000Z")).publishedAt
      = cs "2026-10-11T00:00:00.000Z"
    ∧ (buildArticle (cs "https://example.org/") (cs "example.org") emptyDoc
        (cs "2026-10-11T00:00:00.000Z")).siteName = cs "example.org" :=
  claim_C7 (cs "https://example.org/") (cs "example.org")
    (cs "2026-10-11T00:00:00.000Z") emptyDoc rfl rfl rfl rfl
    (by decide) (by decide)

/-! ## Claim C8: field length classes -/

/-- A document carrying a 300-character thumbnail URL in its image meta
tag. -/
def longMetaDoc : Node :=
  Node.elem (cs "html") [] []
    (NodeList.cons
      (Node.elem (cs "meta") []
        [(cs "property", cs "image"), (cs "content", List.replicate 300 'a')]
        NodeList.nil)
      NodeList.nil)

/-- C8 fails as stated: the thumbnail field is not a display field cut at
255 characters — a 300-character whitespace-free image URL is returned at
full length, so the body excerpt is not the only field outside the
255-bounded class. -/
theorem claim_C8_counterexample :
    ¬ ((buildArticle (cs "https://example.org/") (cs "example.org")
        longMetaDoc (cs "now")).thumbnail.length ≤ 255) := by
  decide

/-- C8 (amended): site name, title and description are whitespace-
normalized (only single, non-adjacent plain spaces, none leading) and at
most 255 characters; the body excerpt AND the thumbnail are normalized
only for whitespace with no 255 cut; the url is echoed verbatim. -/
theorem claim_C8_amended (url hostname now : List Char) (doc : Node) :
    prefixNormalized (buildArticle url hostname doc now).siteName = true
    ∧ (buildArticle url hostname doc now).siteName.length ≤ 255
    ∧ prefixNormalized (buildArticle url hostname doc now).title = true
    ∧ (buildArticle url hostname doc now).title.length ≤ 255
    ∧ prefixNormalized (buildArticle url hostname doc now).description = true
    ∧ (buildArticle url hostname doc now).description.length ≤ 255
    ∧ isSingleSpaceSeparated (buildArticle url hostname doc now).thumbnail
        = true
    ∧ isSingleSpaceSeparated (buildArticle url hostname doc now).content
        = true
    ∧ (buildArticle url hostname doc now).url = url :=
  ⟨truncateToVarCharLimit_prefixNormalized _,
   truncateToVarCharLimit_length_le _,
   truncateToVarCharLimit_prefixNormalized _,
   truncateToVarCharLimit_length_le _,
   truncateToVarCharLimit_prefixNormalized _,
   truncateToVarCharLimit_length_le _,
   normalizeText_singleSpaceSeparated _,
   normalizeText_singleSpaceSeparated _,
   rfl⟩

/-! ## Claim C9: browser lifetime -/

/-- C9: whenever the browser is launched, the trace closes it exactly
once, after the body and before the single terminal event, which is a
return on success and a propagated exception otherwise — for every
combination of failing steps. -/
theorem claim_C9 (w : PupWorld)
    (h : PupEvent.launch ∈ fetchWithPuppeteer w) :
    ∃ t, fetchWithPuppeteer w = [PupEvent.launch, PupEvent.close, t]
      ∧ (t = PupEvent.ret ∨ t = PupEvent.raise) := by
  by_cases hl : w.launchOk = true
  · simp only [fetchWithPuppeteer, hl, Bool.not_true, Bool.false_eq_true,
      if_false]
    cases hb : pupBodyResult w with
    | error u => exact ⟨PupEvent.raise, rfl, Or.inr rfl⟩
    | ok s => exact ⟨PupEvent.ret, rfl, Or.inl rfl⟩
  · exfalso
    simp only [Bool.not_eq_true] at hl
    simp [fetchWithPuppeteer, hl] at h

/-- A run where navigation (`page.goto`) throws. -/
def pupGotoFails : PupWorld :=
  { launchOk := true, newPageOk := true, setUAOk := true,
    gotoOk := false, contentOk := true, html := [] }

/-- Witness for C9: even when navigation throws, the browser is closed
before the exception propagates. -/
theorem claim_C9_witness :
    ∃ t, fetchWithPuppeteer pupGotoFails
        = [PupEvent.launch, PupEvent.close, t]
      ∧ (t = PupEvent.ret ∨ t = PupEvent.raise) :=
  claim_C9 pupGotoFails (by decide)

end MyPocket
